import Mathlib

/-!
Verification of the `llm-arxiv` plugin (file `llm_arxiv.py`) against its
natural-language specification.

The Python source is shallowly embedded:

* strings are Lean `String`s, manipulated through explicit `List Char`
  functions so that every definition is executable and kernel-reducible;
* Python's `int()` literal parsing, `str.strip()`, `str.lower()`,
  `str.split`, slicing and `str.startswith` are modelled by ASCII-faithful
  list functions below;
* Python exceptions become `Except String` (the message is kept so that
  "the error echoes the input" properties can be stated);
* the external collaborators (the PDF library, the image codec, the
  HTML-to-Markdown converter) are abstracted exactly as the spec's
  component model prescribes: a page is its markup (a list of plain
  segments and literal `<img ...>` tags, which is what the placeholder
  regex `<img[^>]*>` distinguishes) together with its ordered list of raw
  embedded images, and each raw image carries the outcome of the
  collaborator calls made on it (extraction, decoding, dimensions,
  re-encoding).

Set-up: basic character and list utilities.
-/

namespace LlmArxiv

/-- Python `str.strip()` whitespace (ASCII fragment). -/
def pyIsWs (c : Char) : Bool :=
  c = ' ' || c = '\t' || c = '\n' || c = '\r' || c = '\x0b' || c = '\x0c'

/-- Python `str.strip()` on a character list. -/
def pyStripL (cs : List Char) : List Char :=
  ((cs.dropWhile pyIsWs).reverse.dropWhile pyIsWs).reverse

/-- Python `str.lower()` on one character (ASCII fragment). -/
def pyLowerC (c : Char) : Char :=
  if 'A' ≤ c && c ≤ 'Z' then Char.ofNat (c.toNat + 32) else c

/-- Python `str.lower()` on a character list. -/
def pyLowerL (cs : List Char) : List Char :=
  cs.map pyLowerC

/-- ASCII decimal digit, as the regex class `\d` and Python's base-10
`int()` see it (codes 48-57). -/
def pyIsDigit (c : Char) : Bool :=
  48 ≤ c.toNat && c.toNat ≤ 57

/-- Python `str.split(sep)` for a one-character separator: always returns
one more part than there are separators, so `"".split(',') == ['']`. -/
def splitOnChar (sep : Char) : List Char → List (List Char)
  | [] => [[]]
  | c :: cs =>
    let r := splitOnChar sep cs
    if c = sep then [] :: r
    else
      match r with
      | h :: t => (c :: h) :: t
      | [] => [[c]]

/-- Python `str.split(sep, 1)` when the separator is known to occur:
the part before the first separator and everything after it. -/
def splitFirst (sep : Char) : List Char → (List Char × List Char)
  | [] => ([], [])
  | c :: cs =>
    if c = sep then ([], cs)
    else
      let p := splitFirst sep cs
      (c :: p.1, p.2)

/-- Strip a literal character-list prefix, returning the remainder. -/
def dropPre : List Char → List Char → Option (List Char)
  | [], cs => some cs
  | _ :: _, [] => none
  | p :: ps, c :: cs => if p = c then dropPre ps cs else none

/-- Python `str.startswith` on character lists. -/
def startsWithL (p cs : List Char) : Bool :=
  (dropPre p cs).isSome

/-- List elements paired with their position, starting at `n`. -/
def withIdxFrom {α : Type} : ℕ → List α → List (ℕ × α)
  | _, [] => []
  | n, a :: l => (n, a) :: withIdxFrom (n + 1) l

/-- `Except.toOption`, kept local so claim statements are decidable. -/
def exceptOk {ε α : Type} : Except ε α → Option α
  | .ok a => some a
  | .error _ => none

/-- Whether an `Except` is an error. -/
def exceptIsError {ε α : Type} : Except ε α → Bool
  | .ok _ => false
  | .error _ => true

/-!
Python `int(str)` for base 10 (ASCII fragment): surrounding whitespace is
ignored, an optional single `+`/`-` sign is allowed, and the digit string
may use single `_` separators between digits.
-/

/-- Digit-string tail after the first digit: digits, with single
underscores allowed only between digits. -/
def pyDigitsTail : List Char → Bool
  | [] => true
  | '_' :: [] => false
  | '_' :: c :: cs => pyIsDigit c && pyDigitsTail cs
  | c :: cs => pyIsDigit c && pyDigitsTail cs

/-- A valid Python base-10 digit sequence (nonempty, underscores between
digits only). -/
def pyDigitsOk : List Char → Bool
  | [] => false
  | c :: cs => pyIsDigit c && pyDigitsTail cs

/-- Numeric value of a digit list (underscores removed beforehand). -/
def digitsVal (cs : List Char) : ℕ :=
  cs.foldl (fun acc c => acc * 10 + (c.toNat - '0'.toNat)) 0

/-- Value of a Python digit sequence, if well formed. -/
def pyDigitsVal (cs : List Char) : Option ℕ :=
  if pyDigitsOk cs then some (digitsVal (cs.filter (· ≠ '_'))) else none

/-- Python `int(s)`: `None` models a raised `ValueError`. -/
def pyIntL (cs : List Char) : Option ℤ :=
  match pyStripL cs with
  | '+' :: r => (pyDigitsVal r).map (fun n => (n : ℤ))
  | '-' :: r => (pyDigitsVal r).map (fun n => -(n : ℤ))
  | r => (pyDigitsVal r).map (fun n => (n : ℤ))

/-!
`parse_ranges_to_set` (llm_arxiv.py lines 26-56): parses `"1,3-5,7"` into
`{1, 3, 4, 5, 7}`, raising `ValueError` on malformed, non-positive or
reversed tokens. The loop over `range_str.split(',')` with the mutable
accumulator `result` becomes `parseRangesGo`; a raised exception aborts
the whole parse, which `Except.error` propagation reproduces.
-/

/-- Loop body of `parse_ranges_to_set`: one pass over the comma-separated
parts, threading the accumulated set, aborting at the first bad token. -/
def parseRangesGo : List (List Char) → Finset ℕ → Except String (Finset ℕ)
  | [], acc => .ok acc
  | p :: rest, acc =>
    let part := pyStripL p
    if part = [] then parseRangesGo rest acc
    else if part.contains '-' then
      let pieces := splitFirst '-' part
      match pyIntL pieces.1, pyIntL pieces.2 with
      | some s, some e =>
        if s ≤ 0 ∨ e ≤ 0 then
          .error ("Invalid range part: '" ++ String.mk part ++
            "'. Page/image numbers must be positive.")
        else if s > e then
          .error ("Invalid range part: '" ++ String.mk part ++
            "'. Invalid range: start (" ++ toString s ++ ") > end (" ++
            toString e ++ ").")
        else parseRangesGo rest (acc ∪ Finset.Icc s.toNat e.toNat)
      | _, _ =>
        .error ("Invalid range part: '" ++ String.mk part ++
          "'. invalid literal for int() with base 10")
    else
      match pyIntL part with
      | some v =>
        if v ≤ 0 then
          .error ("Invalid number in range string: '" ++ String.mk part ++
            "'. Page/image numbers must be positive.")
        else parseRangesGo rest (insert v.toNat acc)
      | none =>
        .error ("Invalid number in range string: '" ++ String.mk part ++
          "'. invalid literal for int() with base 10")

/-- `parse_ranges_to_set` on a character list (the `if not range_str`
guard returns the empty set for the empty string). -/
def parseRangesL (cs : List Char) : Except String (Finset ℕ) :=
  if cs = [] then .ok ∅
  else parseRangesGo (splitOnChar ',' cs) ∅

/-- `parse_ranges_to_set` (llm_arxiv.py lines 26-56). -/
def parse_ranges_to_set (range_str : String) : Except String (Finset ℕ) :=
  parseRangesL range_str.data

/-!
`ImageSelectionCriteria` (llm_arxiv.py lines 20-22) is a string-keyed
`TypedDict`; the three shapes the parser actually produces form a closed
tagged type (the spec's `All | Global(set) | Pages(set)`), and "no
criteria" is `Option.none` at use sites, as in the Python `Optional`.
-/

/-- The selection criteria value produced by `parse_image_selection_spec`. -/
inductive ImageSelectionCriteria : Type
  | all : ImageSelectionCriteria
  | global (indices : Finset ℕ) : ImageSelectionCriteria
  | pages (indices : Finset ℕ) : ImageSelectionCriteria
deriving DecidableEq

/-- The four strings treated as "all images". -/
def allStrings : List (List Char) :=
  ["all".data, "true".data, "yes".data, "1".data]

/-- The four strings treated as "no images". -/
def noneStrings : List (List Char) :=
  ["none".data, "false".data, "no".data, "0".data]

/-- `parse_image_selection_spec` (llm_arxiv.py lines 59-95).

`s_lower = spec_string.lower().strip()` drives every comparison, but the
remainder handed to `parse_ranges_to_set` is `spec_string[2:]`, a slice of
the original, untrimmed argument. Python's falsy test `if not indices`
on a set is the `card = 0` test here. The wrapped error messages embed
the original `spec_string`, as the `raise ... from e` chain in the source
does. -/
def parse_image_selection_spec (spec_string : Option String) :
    Except String (Option ImageSelectionCriteria) :=
  match spec_string with
  | none => .ok none
  | some s =>
    let s_lower := pyStripL (pyLowerL s.data)
    if s_lower = [] ∨ s_lower ∈ allStrings then .ok (some .all)
    else if s_lower ∈ noneStrings then .ok none
    else if startsWithL "g:".data s_lower then
      match parseRangesL (s.data.drop 2) with
      | .ok indices =>
        if indices.card = 0 then
          .error ("Invalid global image selection format ('" ++ s ++
            "'): Global image selection ('G:') requires at least one image index or range.")
        else .ok (some (.global indices))
      | .error e =>
        .error ("Invalid global image selection format ('" ++ s ++ "'): " ++ e)
    else if startsWithL "p:".data s_lower then
      match parseRangesL (s.data.drop 2) with
      | .ok pageNumbers =>
        if pageNumbers.card = 0 then
          .error ("Invalid page selection format ('" ++ s ++
            "'): Page selection ('P:') requires at least one page number or range.")
        else .ok (some (.pages pageNumbers))
      | .error e =>
        .error ("Invalid page selection format ('" ++ s ++ "'): " ++ e)
    else
      .error ("Invalid image selection format: '" ++ s ++
        "'. Expected 'all', 'none', 'G:1,2-5', 'P:1,2-4', or blank for all.")

/-!
`extract_arxiv_id` (llm_arxiv.py lines 288-302). The three `re.match`
patterns are deterministic (every quantifier is followed by a token that
cannot consume the same characters), so maximal-munch parsers are exact
models. Python's `$` without `re.MULTILINE` matches at the end of the
string or just before a final newline, modelled by `pyDollarEnd`.
-/

/-- Python `$` (no MULTILINE): end of input, or just before a final
newline. -/
def pyDollarEnd (cs : List Char) : Bool :=
  cs = [] || cs = ['\n']

/-- Parse the capture group `\d{4,}\.\d{4,}(?:v\d+)?` of the new-style
identifier patterns, returning the captured characters and the rest. -/
def parseNewId (cs : List Char) : Option (List Char × List Char) :=
  let d1 := cs.takeWhile pyIsDigit
  let r1 := cs.dropWhile pyIsDigit
  if d1.length < 4 then none
  else
    match r1 with
    | '.' :: r2 =>
      let d2 := r2.takeWhile pyIsDigit
      let r3 := r2.dropWhile pyIsDigit
      if d2.length < 4 then none
      else
        match r3 with
        | 'v' :: r4 =>
          let d3 := r4.takeWhile pyIsDigit
          let r5 := r4.dropWhile pyIsDigit
          if d3 = [] then some (d1 ++ '.' :: d2, r3)
          else some (d1 ++ '.' :: d2 ++ 'v' :: d3, r5)
        | _ => some (d1 ++ '.' :: d2, r3)
    | _ => none

/-- The `(?:\.pdf)?$` suffix of the URL pattern. -/
def pdfEnd (cs : List Char) : Bool :=
  match dropPre ".pdf".data cs with
  | some r => pyDollarEnd r
  | none => pyDollarEnd cs

/-- After one of the URL prefixes: capture a new-style id, then allow an
optional `.pdf` and the end anchor. -/
def urlCapture (cs : List Char) : Option String :=
  match parseNewId cs with
  | some (cap, rest) => if pdfEnd rest then some (String.mk cap) else none
  | none => none

/-- The URL pattern `https?://arxiv\.org/(?:abs|pdf)/...`: the scheme and
branch alternatives expand to four mutually exclusive literal prefixes
(they disagree pairwise at the character after `http` or at `abs`/`pdf`),
so trying them in order is exactly the regex's alternation. -/
def matchArxivUrl (s : String) : Option String :=
  match dropPre "http://arxiv.org/abs/".data s.data with
  | some r => urlCapture r
  | none =>
    match dropPre "http://arxiv.org/pdf/".data s.data with
    | some r => urlCapture r
    | none =>
      match dropPre "https://arxiv.org/abs/".data s.data with
      | some r => urlCapture r
      | none =>
        match dropPre "https://arxiv.org/pdf/".data s.data with
        | some r => urlCapture r
        | none => none

/-- The bare new-style pattern `^(\d{4,}\.\d{4,}(?:v\d+)?)$`. -/
def matchBareNewId (s : String) : Option String :=
  match parseNewId s.data with
  | some (cap, rest) => if pyDollarEnd rest then some (String.mk cap) else none
  | none => none

/-- A character of the `[a-z-]+` class of the old-style pattern. -/
def oldWordChar (c : Char) : Bool :=
  (97 ≤ c.toNat && c.toNat ≤ 122) || c.toNat = 45

/-- An ASCII upper-case letter, the `[A-Z]` class. -/
def upperAZ (c : Char) : Bool :=
  65 ≤ c.toNat && c.toNat ≤ 90

/-- Match `/\d{7}` and return the rest (for the `$` anchor). -/
def oldSlashRest (cs : List Char) : Option (List Char) :=
  match cs with
  | '/' :: r =>
    let d := r.takeWhile pyIsDigit
    let rest := r.dropWhile pyIsDigit
    if d.length = 7 then some rest else none
  | _ => none

/-- Match `[a-z-]+(?:\.[A-Z]{2})?/\d{7}` and return the rest. When the
optional subcategory group fails, the alternative without it needs a `/`
where the `.` stands, which cannot succeed, so no backtracking arises. -/
def oldIdRest (cs : List Char) : Option (List Char) :=
  let w := cs.takeWhile oldWordChar
  let r1 := cs.dropWhile oldWordChar
  if w = [] then none
  else
    match r1 with
    | '.' :: a :: b :: r => if upperAZ a && upperAZ b then oldSlashRest r else none
    | r => oldSlashRest r

/-- The old-style pattern `^[a-z-]+(?:\.[A-Z]{2})?/\d{7}$`. -/
def matchOldId (s : String) : Bool :=
  match oldIdRest s.data with
  | some rest => pyDollarEnd rest
  | none => false

/-- `extract_arxiv_id` (llm_arxiv.py lines 288-302): the three patterns in
order; the old-style branch returns the whole argument, not a capture. -/
def extract_arxiv_id (argument : String) : Option String :=
  match matchArxivUrl argument with
  | some id => some id
  | none =>
    match matchBareNewId argument with
    | some id => some id
    | none => if matchOldId argument then some argument else none

/-!
The resize directive (llm_arxiv.py lines 193-211) and the fragment
loader's `?r`/`?resize_images` option parsing (lines 344-359).

`resize_option : Union[bool, int]`. In Python `bool` is a subclass of
`int`, so `isinstance(resize_option, int)` is `True` for both variants and
`True > 0` holds with `True` acting as `1`. `pyResizeToInt` is that
numeric coercion.
-/

/-- The Python `Union[bool, int]` value passed as `resize_option`. -/
inductive PyResize : Type
  | bool (b : Bool) : PyResize
  | int (n : ℤ) : PyResize
deriving DecidableEq

/-- Numeric value of a `Union[bool, int]`: `True == 1`, `False == 0`. -/
def pyResizeToInt : PyResize → ℤ
  | .bool true => 1
  | .bool false => 0
  | .int n => n

/-- Lines 193-201: `perform_resize` and `max_dim_to_use`. The guard
`isinstance(resize_option, int) and resize_option > 0` is taken whenever
the numeric value is positive — including for `True`, whose value 1 then
becomes `max_dim_to_use`, so the `elif resize_option is True` branch
that would set the documented default of 512 is unreachable. -/
def resizeParams (resize_option : PyResize) : Bool × ℕ :=
  if pyResizeToInt resize_option > 0 then
    (true, (pyResizeToInt resize_option).toNat)
  else if resize_option = .bool true then (true, 512)
  else (false, 512)

/-- Lines 203-211: the resize arithmetic on positive dimensions. Python's
`int(max_dim * h / w)` is float division truncated; on the ranges involved
this is the floor `m * h / w` in natural division, which is how it is
modelled. -/
def resizeDims (resize_option : PyResize) (w h : ℕ) : ℕ × ℕ :=
  let pr := resizeParams resize_option
  if pr.1 = true ∧ (w > pr.2 ∨ h > pr.2) then
    if w > h then (pr.2, max 1 (pr.2 * h / w))
    else (max 1 (pr.2 * w / h), pr.2)
  else (w, h)

/-- Lines 345-359 of `arxiv_loader`: turn the raw `?resize_images`/`?r`
query values into the `resize_option` argument. A missing option is
`False`; a true-like first value is `True`; a positive integer is itself;
anything else (non-positive integer or unparsable string) falls back to
`True`. -/
def arxiv_loader_resize_option (resize_values : List String) : PyResize :=
  match resize_values with
  | [] => .bool false
  | v :: _ =>
    let val := pyLowerL v.data
    if val ∈ ["true".data, "1".data, "yes".data, "".data] then .bool true
    else
      match pyIntL val with
      | some n => if n > 0 then .int n else .bool true
      | none => .bool true

/-!
The document assembler, `_process_arxiv_paper` (llm_arxiv.py lines
99-280). The external collaborators are abstracted:

* `RawImage` records the outcome of each collaborator call the loop makes
  on one embedded image: whether `doc.extract_image` succeeds
  (`extractOk`), the declared extension (`ext`, already lower-cased as on
  line 167), whether `Image.open`/`convert`/`load` succeed (`decodeOk`),
  the decoded `width`/`height` (naturals; PIL dimensions are non-negative,
  and the line-189 guard `width <= 0 or height <= 0` is the `= 0` test),
  and whether the resize/re-encode/`save` step succeeds (`encodeOk`).
* a `Page` is the page's HTML, split into plain text runs and the literal
  `<img[^>]*>` tags that the line-269 `re.sub` rewrites, plus
  `page.get_images(full=True)` as the ordered raw image list.
* the output text is kept as a list of segments; the final `markdownify`
  call is the identity on this structure for the purposes of the claims
  (the spec: placeholders are plain text and survive the conversion, and
  no `<img>` syntax remains to be stripped).
-/

/-- Outcome record for one raw embedded image. -/
structure RawImage : Type where
  extractOk : Bool
  ext : String
  decodeOk : Bool
  width : ℕ
  height : ℕ
  encodeOk : Bool
deriving DecidableEq

/-- A run of page HTML: plain markup, or one literal `<img ...>` tag
(`raw` is the exact tag text the regex `<img[^>]*>` matched). -/
inductive MarkupItem : Type
  | text (s : String) : MarkupItem
  | imgTag (raw : String) : MarkupItem
deriving DecidableEq

/-- One page as the assembler sees it. -/
structure Page : Type where
  html : List MarkupItem
  images : List RawImage
deriving DecidableEq

/-- A processed attachment: `ref` stands for the re-encoded bytes by
their provenance (the same conceptual reference used for the placeholder
of this image), `type` is the declared media type (line 252). -/
structure Attachment : Type where
  ref : String
  type : String
deriving DecidableEq

/-- A segment of the rewritten output text: plain markup carried over, or
one inserted placeholder `<p>[IMAGE: ref]</p>`. -/
inductive OutSeg : Type
  | plain (s : String) : OutSeg
  | placeholder (ref : String) : OutSeg
deriving DecidableEq

/-- The assembled document: rewritten text segments plus the ordered
attachment list. -/
structure AssembledDoc : Type where
  segs : List OutSeg
  attachments : List Attachment
deriving DecidableEq

/-- Line 248: `f"{url}#page_{page_num + 1}_img_{img_idx_on_page + 1}"`
(`pageNum` and `idx` are the 0-based loop indices). -/
def conceptualRef (url : String) (pageNum idx : ℕ) : String :=
  url ++ "#page_" ++ Nat.repr (pageNum + 1) ++ "_img_" ++ Nat.repr (idx + 1)

/-- Lines 169-172: `pillow_input_ext_guess`. -/
def pillowGuess (ext : String) : String :=
  if ext ∉ ["png", "jpeg", "jpg", "gif", "bmp"] ∨ ext = "jpx" then "png" else ext

/-- Lines 222-243: the output encoding chosen for a surviving image. -/
def finalExt (ext : String) : String :=
  if pillowGuess ext ∈ ["jpeg", "jpg"] then "jpeg" else "png"

/-- Lines 141-153: eligibility of one discovered image. `counter` is the
already-incremented document-wide counter, `pageNum` the 0-based page
index (the code compares `page_num + 1`). The Python truthiness guard
`image_selection_criteria.get("indices") and ...` is the `card ≠ 0`
conjunct. -/
def eligibleImage (c : ImageSelectionCriteria) (counter pageNum : ℕ) : Bool :=
  match c with
  | .all => true
  | .global s => s.card ≠ 0 && decide (counter ∈ s)
  | .pages s => s.card ≠ 0 && decide ((pageNum + 1) ∈ s)

/-- Lines 159-256 for one selected image: `none` models every silent
per-image skip (`extract_image` failure, decode failure, non-positive
dimensions, resize/re-encode failure); `some e` is survival with output
extension `e`. The resize directive only rescales pixel data (the
arithmetic is `resizeDims`); which images survive, their order and their
provenance do not depend on it, so `resize_option` is carried but not
inspected. -/
def processSelectedImage (_resize_option : PyResize) (img : RawImage) : Option String :=
  if !img.extractOk then none
  else if !img.decodeOk then none
  else if img.width = 0 ∨ img.height = 0 then none
  else if !img.encodeOk then none
  else some (finalExt img.ext)

/-- Lines 137-256: the per-page image loop. Arguments: the remaining
images, the 0-based index of the next image on this page
(`img_idx_on_page`), and the document-wide counter before it. Returns the
conceptual refs and attachments accumulated for this page (lines 249,
253) and the counter afterwards. The counter is incremented for every
discovered image (line 138) before eligibility is checked. -/
def processPageImages (c : ImageSelectionCriteria) (resize_option : PyResize)
    (url : String) (pageNum : ℕ) :
    List RawImage → ℕ → ℕ → (List String × List Attachment × ℕ)
  | [], _, counter => ([], [], counter)
  | img :: rest, idx, counter =>
    let counter1 := counter + 1
    if eligibleImage c counter1 pageNum then
      match processSelectedImage resize_option img with
      | some fext =>
        let ref := conceptualRef url pageNum idx
        let tail := processPageImages c resize_option url pageNum rest (idx + 1) counter1
        (ref :: tail.1, ⟨ref, "image/" ++ fext⟩ :: tail.2.1, tail.2.2)
      | none => processPageImages c resize_option url pageNum rest (idx + 1) counter1
    else processPageImages c resize_option url pageNum rest (idx + 1) counter1

/-- Lines 259-269: `re.sub(r"<img[^>]*>", fn, html)` where `fn` consumes
`next(placeholder_iter)` and returns `""` when the iterator is exhausted
(the `StopIteration` branch). -/
def substitutePlaceholders : List MarkupItem → List String → List OutSeg
  | [], _ => []
  | .text s :: rest, refs => .plain s :: substitutePlaceholders rest refs
  | .imgTag _ :: rest, [] => .plain "" :: substitutePlaceholders rest []
  | .imgTag _ :: rest, r :: refs => .placeholder r :: substitutePlaceholders rest refs

/-- Lines 129-271: the page loop. Arguments: remaining pages, the 0-based
index of the next page, the document-wide image counter. When the
criteria are absent the image block (lines 136-256) is skipped, but the
substitution of lines 259-269 still runs, with an empty placeholder
list. -/
def processPages (criteria : Option ImageSelectionCriteria) (resize_option : PyResize)
    (url : String) :
    List Page → ℕ → ℕ → (List OutSeg × List Attachment)
  | [], _, _ => ([], [])
  | page :: rest, pageNum, counter =>
    let step :=
      match criteria with
      | none => (([] : List String), ([] : List Attachment), counter)
      | some c => processPageImages c resize_option url pageNum page.images 0 counter
    let segs := substitutePlaceholders page.html step.1
    let tail := processPages criteria resize_option url rest (pageNum + 1) step.2.2
    (segs ++ tail.1, step.2.1 ++ tail.2)

/-- The pure core of `_process_arxiv_paper` once the PDF pages are in
hand: the `resize_option` only affects attachment bytes, not the
document structure, so it does not appear here (its arithmetic is
`resizeDims`). -/
def assemble (pages : List Page) (criteria : Option ImageSelectionCriteria)
    (resize_option : PyResize) (url : String) : AssembledDoc :=
  let r := processPages criteria resize_option url pages 0 0
  ⟨r.1, r.2⟩

/-- Lines 127-274: the whole-operation failure semantics. Opening and
iterating the PDF is abstracted as an `Except`: a raised exception `e`
anywhere in that region becomes the wrapped fatal error of line 274;
otherwise the assembled document is returned. -/
def processPaperDoc (openResult : Except String (List Page))
    (criteria : Option ImageSelectionCriteria) (resize_option : PyResize)
    (url pdfPath : String) : Except String AssembledDoc :=
  match openResult with
  | .error e => .error ("Failed to extract content from PDF " ++ pdfPath ++ ": " ++ e)
  | .ok pages => .ok (assemble pages criteria resize_option url)

/-- The placeholders of the output text, in text order. -/
def placeholderRefs : List OutSeg → List String
  | [] => []
  | .plain _ :: rest => placeholderRefs rest
  | .placeholder r :: rest => r :: placeholderRefs rest

/-- Number of `<img ...>` markers in a page's markup. -/
def countImgTags (items : List MarkupItem) : ℕ :=
  items.countP (fun i => match i with | .imgTag _ => true | .text _ => false)

/-- Original page markup as the HTML string it stands for. -/
def renderMarkup : List MarkupItem → String
  | [] => ""
  | .text s :: rest => s ++ renderMarkup rest
  | .imgTag raw :: rest => raw ++ renderMarkup rest

/-- Rewritten page text as the string it stands for. -/
def renderOut : List OutSeg → String
  | [] => ""
  | .plain s :: rest => s ++ renderOut rest
  | .placeholder r :: rest => "<p>[IMAGE: " ++ r ++ "]</p>" ++ renderOut rest

/-- Concatenated original markup of a page list. -/
def renderPages : List Page → String
  | [] => ""
  | pg :: rest => renderMarkup pg.html ++ renderPages rest

/-!
Specification-side characterisations of the assembler, written against
the document as a whole rather than as the threaded page/counter loop:
all images of the document in discovery order with their page and
in-page indices, then a filter by eligibility at the 1-based global
position. The claim theorems compare the loop to these.
-/

/-- All raw images of a page list in discovery order, tagged with the
0-based page index (starting at `pn`) and 0-based in-page index. -/
def docImagesFrom : List Page → ℕ → List (ℕ × ℕ × RawImage)
  | [], _ => []
  | pg :: rest, pn =>
    (withIdxFrom 0 pg.images).map (fun p => (pn, p.1, p.2)) ++ docImagesFrom rest (pn + 1)

/-- Specification view of one discovered image: the attachment it
contributes when it is eligible at counter value `k` and survives
processing. -/
def specImageAtt (c : ImageSelectionCriteria) (resize_option : PyResize)
    (url : String) (pageNum idx k : ℕ) (img : RawImage) : Option Attachment :=
  if eligibleImage c k pageNum then
    match processSelectedImage resize_option img with
    | some fext => some ⟨conceptualRef url pageNum idx, "image/" ++ fext⟩
    | none => none
  else none

/-- Specification view of the whole attachment list: enumerate the
document's images in discovery order; the image at 0-based position `i`
is tested at counter value `i + 1`. -/
def specAttsGlobal (c : ImageSelectionCriteria) (resize_option : PyResize)
    (url : String) (pages : List Page) : List Attachment :=
  (withIdxFrom 0 (docImagesFrom pages 0)).filterMap
    (fun q => specImageAtt c resize_option url q.2.1 q.2.2.1 (q.1 + 1) q.2.2.2)

/-- All surviving images of one page, ignoring eligibility (used for the
`Pages` mode characterisation, where eligibility is a per-page fact). -/
def pageAllSuccessAtts (resize_option : PyResize) (url : String) (pageNum : ℕ)
    (imgs : List RawImage) : List Attachment :=
  (withIdxFrom 0 imgs).filterMap
    (fun p =>
      match processSelectedImage resize_option p.2 with
      | some fext => some ⟨conceptualRef url pageNum p.1, "image/" ++ fext⟩
      | none => none)

/-- Specification view of `Pages(S)` selection: a page contributes all
its surviving images when its 1-based number is in `S`, and nothing at
all otherwise. -/
def specAttsPages (s : Finset ℕ) (resize_option : PyResize) (url : String)
    (pages : List Page) : List Attachment :=
  (withIdxFrom 0 pages).flatMap
    (fun p =>
      if p.1 + 1 ∈ s then pageAllSuccessAtts resize_option url p.1 p.2.images
      else [])

/-- One markup item after substitution against an empty placeholder
list: text is kept, every `<img ...>` tag becomes empty content. -/
def stripImgItem : MarkupItem → OutSeg
  | .text s => .plain s
  | .imgTag _ => .plain ""

/-- All pages' markup after empty-placeholder substitution. -/
def stripImgSegs : List Page → List OutSeg
  | [] => []
  | pg :: rest => pg.html.map stripImgItem ++ stripImgSegs rest

/-!
Formal statements of the claims that turn out to be false as written.
Each is stated as one `Prop`, refuted at a concrete input, and replaced
by an amended theorem.
-/

/-- Claim C1 as stated: for every paper, criteria, resize directive and
per-image outcome pattern, the output placeholders and the attachment
list have equal length and correspond positionally. -/
def claimDocZip : Prop :=
  ∀ (pages : List Page) (criteria : Option ImageSelectionCriteria)
    (resize_option : PyResize) (url : String),
    placeholderRefs (assemble pages criteria resize_option url).segs =
      (assemble pages criteria resize_option url).attachments.map Attachment.ref

/-- Claim C9 as stated: with absent criteria every page's markup is
appended to the output unchanged. -/
def claimAbsentUnchanged : Prop :=
  ∀ (pages : List Page) (resize_option : PyResize) (url : String),
    renderOut (assemble pages none resize_option url).segs = renderPages pages

/-!
Claims C3-C5: spec-side token denotation for the range parser, and the
two readings of the selection-spec grammar (the claimed one, where the
`g:`/`p:` remainder comes from the trimmed input, and the code's, where
it is `spec_string[2:]` of the original).
-/

/-- A positive-integer token in the spec's sense: decimal digits only,
with positive value. -/
def specPosIntTok (t : List Char) : Option ℕ :=
  if t ≠ [] ∧ t.all pyIsDigit ∧ 0 < digitsVal t then some (digitsVal t) else none

/-- The set denoted by one (already trimmed) token in the spec's sense:
a positive integer denotes its singleton, `start-end` with both positive
and `start ≤ end` denotes the inclusive interval; anything else
(including the empty token) is invalid. -/
def specTokenSet (t : List Char) : Option (Finset ℕ) :=
  if t.contains '-' then
    let pieces := splitFirst '-' t
    match specPosIntTok pieces.1, specPosIntTok pieces.2 with
    | some a, some b => if a ≤ b then some (Finset.Icc a b) else none
    | _, _ => none
  else (specPosIntTok t).map (fun a => {a})

/-- Union of the denotations of a token list; `none` if any is invalid. -/
def specTokensUnion : List (List Char) → Option (Finset ℕ)
  | [] => some ∅
  | t :: ts =>
    match specTokenSet t, specTokensUnion ts with
    | some a, some b => some (a ∪ b)
    | _, _ => none

/-- The trimmed comma-separated tokens of a range string. -/
def rangeTokens (s : String) : List (List Char) :=
  (splitOnChar ',' s.data).map pyStripL

/-- Claim C3 as stated: the empty string yields the empty set; any other
input either has all tokens valid, and then the parser returns exactly
the union of their denotations, or has some invalid token, and then the
parser fails. -/
def claimRangeParser : Prop :=
  exceptOk (parse_ranges_to_set "") = some ∅ ∧
  ∀ s : String, s ≠ "" →
    exceptOk (parse_ranges_to_set s) = specTokensUnion (rangeTokens s)

/-- The set denoted by one nonempty trimmed token in the code's grammar:
`pyIntL` acceptance with positivity, intervals from the first `-`. -/
def codeTokenSet (t : List Char) : Option (Finset ℕ) :=
  if t.contains '-' then
    let pieces := splitFirst '-' t
    match pyIntL pieces.1, pyIntL pieces.2 with
    | some a, some b =>
      if a ≤ 0 ∨ b ≤ 0 then none
      else if a > b then none
      else some (Finset.Icc a.toNat b.toNat)
    | _, _ => none
  else
    match pyIntL t with
    | some v => if v ≤ 0 then none else some {v.toNat}
    | none => none

/-- Union of code-grammar denotations; `none` if any token is invalid. -/
def codeTokensUnion : List (List Char) → Option (Finset ℕ)
  | [] => some ∅
  | t :: ts =>
    match codeTokenSet t, codeTokensUnion ts with
    | some a, some b => some (a ∪ b)
    | _, _ => none

/-- Selection criteria per the spec's words, with the remainder of the
`g:`/`p:` forms taken from the trimmed, case-folded input (claims C4/C5
describe the mapping "after trimming and case-insensitive comparison").
Error messages are not part of the claimed mapping, so a fixed marker is
used. -/
def selectionSpecModel (spec_string : Option String) :
    Except String (Option ImageSelectionCriteria) :=
  match spec_string with
  | none => .ok none
  | some s =>
    let t := pyStripL (pyLowerL s.data)
    if t = [] ∨ t ∈ allStrings then .ok (some .all)
    else if t ∈ noneStrings then .ok none
    else if startsWithL "g:".data t then
      match parseRangesL (t.drop 2) with
      | .ok indices =>
        if indices.card = 0 then .error "invalid selection"
        else .ok (some (.global indices))
      | .error _ => .error "invalid selection"
    else if startsWithL "p:".data t then
      match parseRangesL (t.drop 2) with
      | .ok pageNumbers =>
        if pageNumbers.card = 0 then .error "invalid selection"
        else .ok (some (.pages pageNumbers))
      | .error _ => .error "invalid selection"
    else .error "invalid selection"

/-- The same mapping with the remainder sliced from the original input
(`spec_string[2:]`), which is what the code does. -/
def selectionSpecModelRaw (spec_string : Option String) :
    Except String (Option ImageSelectionCriteria) :=
  match spec_string with
  | none => .ok none
  | some s =>
    let t := pyStripL (pyLowerL s.data)
    if t = [] ∨ t ∈ allStrings then .ok (some .all)
    else if t ∈ noneStrings then .ok none
    else if startsWithL "g:".data t then
      match parseRangesL (s.data.drop 2) with
      | .ok indices =>
        if indices.card = 0 then .error "invalid selection"
        else .ok (some (.global indices))
      | .error _ => .error "invalid selection"
    else if startsWithL "p:".data t then
      match parseRangesL (s.data.drop 2) with
      | .ok pageNumbers =>
        if pageNumbers.card = 0 then .error "invalid selection"
        else .ok (some (.pages pageNumbers))
      | .error _ => .error "invalid selection"
    else .error "invalid selection"

/-- Claim C4 as stated: the parser realises the spec-side mapping (same
success values, failure exactly where the model fails). -/
def claimSelectionMapping : Prop :=
  ∀ spec_string : Option String,
    exceptOk (parse_image_selection_spec spec_string) =
      exceptOk (selectionSpecModel spec_string)

/-- Whether the range remainder `cs` parses to a nonempty set. -/
def rangesOkNonempty (cs : List Char) : Bool :=
  match parseRangesL cs with
  | .ok s => s.card ≠ 0
  | .error _ => false

/-- The failure condition of claim C5, with the remainder read from the
trimmed input: the input fails exactly when it is not one of the
accepted forms (empty / all-words / none-words / a prefixed form whose
remainder denotes a nonempty set). -/
def c5FailCond (s : String) : Bool :=
  let t := pyStripL (pyLowerL s.data)
  !(t = [] || t ∈ allStrings || t ∈ noneStrings ||
    ((startsWithL "g:".data t || startsWithL "p:".data t) && rangesOkNonempty (t.drop 2)))

/-- The failure condition actually implemented: the remainder is
`spec_string[2:]` of the original input. -/
def c5FailCondRaw (s : String) : Bool :=
  let t := pyStripL (pyLowerL s.data)
  !(t = [] || t ∈ allStrings || t ∈ noneStrings ||
    ((startsWithL "g:".data t || startsWithL "p:".data t) &&
      rangesOkNonempty (s.data.drop 2)))

/-- Claim C5 as stated: failure happens exactly under `c5FailCond`, and
every failure message echoes the original input. -/
def claimSelectionFailure : Prop :=
  ∀ s : String,
    (exceptIsError (parse_image_selection_spec (some s)) = c5FailCond s) ∧
    (∀ e, parse_image_selection_spec (some s) = .error e →
      ∃ a b, e = a ++ s ++ b)

/-!
Claim C6: valid identifiers by shape. A new-style identifier is
`d1 ++ "." ++ d2` with at least four digits on each side, optionally
followed by `v` and a nonempty digit run; an old-style identifier is a
nonempty `[a-z-]` word, an optional `.` plus two capitals, then `/` and
exactly seven digits.
-/

/-- Build a new-style identifier from its parts. -/
def mkNewId (d1 d2 : List Char) (v : List Char) : String :=
  String.mk (d1 ++ '.' :: d2 ++ (if v = [] then [] else 'v' :: v))

/-- Well-formedness of the new-style parts. -/
def newIdParts (d1 d2 v : List Char) : Prop :=
  4 ≤ d1.length ∧ d1.all pyIsDigit ∧ 4 ≤ d2.length ∧ d2.all pyIsDigit ∧
    v.all pyIsDigit

/-- The characters contributed by the optional `.[A-Z]{2}` group. -/
def subChars : Option (Char × Char) → List Char
  | some p => '.' :: p.1 :: [p.2]
  | none => []

/-- Well-formedness of the optional subcategory. -/
def subOk : Option (Char × Char) → Bool
  | some p => upperAZ p.1 && upperAZ p.2
  | none => true

/-- Build an old-style identifier from its parts. -/
def mkOldId (w : List Char) (sub : Option (Char × Char)) (ds : List Char) : String :=
  String.mk (w ++ subChars sub ++ '/' :: ds)

/-- Well-formedness of the old-style parts. -/
def oldIdParts (w : List Char) (sub : Option (Char × Char)) (ds : List Char) : Prop :=
  w ≠ [] ∧ w.all oldWordChar = true ∧ subOk sub = true ∧ ds.length = 7 ∧
    ds.all pyIsDigit = true

instance (d1 d2 v : List Char) : Decidable (newIdParts d1 d2 v) := by
  unfold newIdParts; infer_instance

instance (w : List Char) (sub : Option (Char × Char)) (ds : List Char) :
    Decidable (oldIdParts w sub ds) := by
  unfold oldIdParts; infer_instance

/-- The URL wrappings of claim C6. -/
def urlWraps (id : String) : List String :=
  ["http://arxiv.org/abs/" ++ id, "http://arxiv.org/pdf/" ++ id,
   "https://arxiv.org/abs/" ++ id, "https://arxiv.org/pdf/" ++ id,
   "http://arxiv.org/abs/" ++ id ++ ".pdf", "http://arxiv.org/pdf/" ++ id ++ ".pdf",
   "https://arxiv.org/abs/" ++ id ++ ".pdf", "https://arxiv.org/pdf/" ++ id ++ ".pdf"]

/-- Claim C6 as stated: both identifier styles round-trip bare and under
every supported URL wrapping. -/
def claimExtractRoundTrip : Prop :=
  (∀ d1 d2 v, newIdParts d1 d2 v →
    extract_arxiv_id (mkNewId d1 d2 v) = some (mkNewId d1 d2 v) ∧
    ∀ u ∈ urlWraps (mkNewId d1 d2 v), extract_arxiv_id u = some (mkNewId d1 d2 v)) ∧
  (∀ w sub ds, oldIdParts w sub ds →
    extract_arxiv_id (mkOldId w sub ds) = some (mkOldId w sub ds) ∧
    ∀ u ∈ urlWraps (mkOldId w sub ds), extract_arxiv_id u = some (mkOldId w sub ds))

end LlmArxiv

namespace LlmArxiv

/-!
Theorems. Claim C3 first: the range parser against the token-by-token
denotation. The loop threads an accumulator and aborts at the first bad
token; the lemma relates it to the independent union of the remaining
tokens' denotations.
-/

theorem parseRangesGo_spec (ts : List (List Char)) (acc : Finset ℕ) :
    exceptOk (parseRangesGo ts acc) =
      (codeTokensUnion ((ts.map pyStripL).filter (· ≠ []))).map (fun u => acc ∪ u) := by
  induction ts generalizing acc with
  | nil => simp [parseRangesGo, codeTokensUnion, exceptOk]
  | cons t ts ih =>
    by_cases hpart : pyStripL t = []
    · simp [parseRangesGo, hpart, ih]
    · have hfil : ((t :: ts).map pyStripL).filter (· ≠ []) =
        pyStripL t :: ((ts.map pyStripL).filter (· ≠ [])) := by
        simp [hpart]
      rw [hfil]
      simp only [parseRangesGo, codeTokensUnion]
      rw [if_neg hpart]
      by_cases hdash : (pyStripL t).contains '-'
      · rw [if_pos hdash]
        simp only [codeTokenSet]
        rw [if_pos hdash]
        rcases h1 : pyIntL (splitFirst '-' (pyStripL t)).1 with _ | a
        · simp [h1, exceptOk]
        · rcases h2 : pyIntL (splitFirst '-' (pyStripL t)).2 with _ | b
          · simp [h1, h2, exceptOk]
          · simp only [h1, h2]
            by_cases hpos : a ≤ 0 ∨ b ≤ 0
            · simp [hpos, exceptOk]
            · by_cases hord : a > b
              · simp [hpos, hord, exceptOk]
              · simp only [hpos, hord, if_false, ih]
                cases codeTokensUnion ((ts.map pyStripL).filter (· ≠ [])) with
                | none => simp
                | some u => simp [Finset.union_assoc]
      · rw [if_neg hdash]
        simp only [codeTokenSet]
        rw [if_neg hdash]
        rcases h1 : pyIntL (pyStripL t) with _ | v
        · simp [h1, exceptOk]
        · simp only [h1]
          by_cases hpos : v ≤ 0
          · simp [hpos, exceptOk]
          · simp only [hpos, if_false, ih]
            cases codeTokensUnion ((ts.map pyStripL).filter (· ≠ [])) with
            | none => simp
            | some u =>
              simp [Finset.insert_union, ← Finset.insert_eq, Finset.union_insert]

/-- Claim C3 counterexample: on the input `","` both comma-separated
tokens are empty, hence invalid in the claim's sense ("not either a
positive integer or a start-end pair"), so the claim demands a failure;
`parse_ranges_to_set` instead skips empty tokens (`if not part:
continue`) and returns the empty set. -/
theorem c3_range_parser_counterexample : ¬claimRangeParser := by
  intro h
  exact absurd (h.2 "," (by decide)) (by decide)

/-- Claim C3, amended: `parse_ranges_to_set` returns exactly the union of
the denotations of its nonempty trimmed comma-separated tokens, and fails
iff some nonempty token is invalid — where a token is valid when Python's
`int()` accepts its parts (so surrounding whitespace, a leading sign and
underscore digit grouping are admitted) with positive values and
`start ≤ end` for ranges; empty tokens are skipped, and the empty string
yields the empty set. -/
theorem c3_range_parser_amended (s : String) :
    exceptOk (parse_ranges_to_set s) =
      codeTokensUnion ((rangeTokens s).filter (· ≠ [])) := by
  unfold parse_ranges_to_set parseRangesL rangeTokens
  by_cases hs : s.data = []
  · simp [hs, splitOnChar, pyStripL, codeTokensUnion, exceptOk]
  · rw [if_neg hs, parseRangesGo_spec]
    cases codeTokensUnion (((splitOnChar ',' s.data).map pyStripL).filter (· ≠ [])) with
    | none => rfl
    | some u => simp

/-- Claim C4 counterexample: on `" g:1"` the trimmed, case-folded input
is `"g:1"`, so the claimed mapping hands the remainder `"1"` to the range
parser and produces `Global({1})`; the code slices `spec_string[2:]` from
the original (`":1"`), which fails to parse, so the call raises. -/
theorem c4_selection_mapping_counterexample : ¬claimSelectionMapping := by
  intro h
  exact absurd (h (some " g:1")) (by decide)

/-- Claim C4, amended: the mapping is as claimed except that the
remainder handed to the range parser after a `g:`/`p:` prefix is the
slice of the original, untrimmed input from character index 2, so a
leading-whitespace input such as `" g:1"` fails instead of selecting. -/
theorem c4_selection_mapping_amended (spec_string : Option String) :
    exceptOk (parse_image_selection_spec spec_string) =
      exceptOk (selectionSpecModelRaw spec_string) := by
  cases spec_string with
  | none => rfl
  | some s =>
    simp only [parse_image_selection_spec, selectionSpecModelRaw]
    by_cases h1 : pyStripL (pyLowerL s.data) = [] ∨ pyStripL (pyLowerL s.data) ∈ allStrings
    · rw [if_pos h1, if_pos h1]
    · rw [if_neg h1, if_neg h1]
      by_cases h2 : pyStripL (pyLowerL s.data) ∈ noneStrings
      · rw [if_pos h2, if_pos h2]
      · rw [if_neg h2, if_neg h2]
        by_cases h3 : startsWithL "g:".data (pyStripL (pyLowerL s.data)) = true
        · rw [if_pos h3, if_pos h3]
          cases hp : parseRangesL (s.data.drop 2) with
          | ok ind =>
            by_cases h4 : ind.card = 0 <;> simp [hp, h4, exceptOk]
          | error e => simp [hp, exceptOk]
        · rw [if_neg h3, if_neg h3]
          by_cases h5 : startsWithL "p:".data (pyStripL (pyLowerL s.data)) = true
          · rw [if_pos h5, if_pos h5]
            cases hp : parseRangesL (s.data.drop 2) with
            | ok ind =>
              by_cases h4 : ind.card = 0 <;> simp [hp, h4, exceptOk]
            | error e => simp [hp, exceptOk]
          · rw [if_neg h5, if_neg h5]
            rfl

/-- Claim C5 counterexample: `" p:1"` trims to `"p:1"` with a well-formed
nonempty remainder `"1"`, so the claimed failure condition does not hold,
yet the call fails (the code parses the raw slice `":1"`). -/
theorem c5_selection_failure_counterexample : ¬claimSelectionFailure := by
  intro h
  exact absurd (h " p:1").1 (by decide)

/-- Claim C5, amended: `parse_image_selection_spec` fails exactly when
the trimmed, case-folded input is none of the accepted forms, where the
prefixed forms require the slice of the original input from index 2 to
parse to a nonempty set; every failure message echoes the original
input. -/
theorem c5_selection_failure_amended (s : String) :
    (exceptIsError (parse_image_selection_spec (some s)) = c5FailCondRaw s) ∧
    (∀ e, parse_image_selection_spec (some s) = .error e → ∃ a b, e = a ++ s ++ b) := by
  constructor
  · simp only [parse_image_selection_spec, c5FailCondRaw]
    by_cases h1 : pyStripL (pyLowerL s.data) = [] ∨ pyStripL (pyLowerL s.data) ∈ allStrings
    · rw [if_pos h1]
      rcases h1 with h | h <;> simp [h, exceptIsError]
    · have ha : ¬pyStripL (pyLowerL s.data) = [] := fun hh => h1 (Or.inl hh)
      have hb : pyStripL (pyLowerL s.data) ∉ allStrings := fun hh => h1 (Or.inr hh)
      rw [if_neg h1]
      by_cases h2 : pyStripL (pyLowerL s.data) ∈ noneStrings
      · rw [if_pos h2]; simp [ha, hb, h2, exceptIsError]
      · rw [if_neg h2]
        by_cases h3 : startsWithL "g:".data (pyStripL (pyLowerL s.data)) = true
        · rw [if_pos h3]
          cases hp : parseRangesL (s.data.drop 2) with
          | ok ind =>
            by_cases h4 : ind.card = 0 <;>
              simp [hp, h4, exceptIsError, ha, hb, h2, h3, rangesOkNonempty]
          | error e => simp [hp, exceptIsError, ha, hb, h2, h3, rangesOkNonempty]
        · rw [if_neg h3]
          by_cases h5 : startsWithL "p:".data (pyStripL (pyLowerL s.data)) = true
          · rw [if_pos h5]
            cases hp : parseRangesL (s.data.drop 2) with
            | ok ind =>
              by_cases h4 : ind.card = 0 <;>
                simp [hp, h4, exceptIsError, ha, hb, h2, h3, h5, rangesOkNonempty]
            | error e => simp [hp, exceptIsError, ha, hb, h2, h3, h5, rangesOkNonempty]
          · simp [ha, hb, h2, h3, h5, exceptIsError, rangesOkNonempty]
  · intro e he
    simp only [parse_image_selection_spec] at he
    by_cases h1 : pyStripL (pyLowerL s.data) = [] ∨ pyStripL (pyLowerL s.data) ∈ allStrings
    · rw [if_pos h1] at he; cases he
    · rw [if_neg h1] at he
      by_cases h2 : pyStripL (pyLowerL s.data) ∈ noneStrings
      · rw [if_pos h2] at he; cases he
      · rw [if_neg h2] at he
        by_cases h3 : startsWithL "g:".data (pyStripL (pyLowerL s.data)) = true
        · rw [if_pos h3] at he
          split at he
          · split at he
            · refine ⟨"Invalid global image selection format ('",
                "'): Global image selection ('G:') requires at least one image index or range.",
                ?_⟩
              exact (Except.error.injEq _ _).mp he.symm
            · cases he
          · rename_i msg hmsgeq
            refine ⟨"Invalid global image selection format ('", "'): " ++ msg, ?_⟩
            have hmsg := (Except.error.injEq _ _).mp he.symm
            rw [hmsg]
            simp [String.append_assoc]
        · rw [if_neg h3] at he
          by_cases h5 : startsWithL "p:".data (pyStripL (pyLowerL s.data)) = true
          · rw [if_pos h5] at he
            split at he
            · split at he
              · refine ⟨"Invalid page selection format ('",
                  "'): Page selection ('P:') requires at least one page number or range.",
                  ?_⟩
                exact (Except.error.injEq _ _).mp he.symm
              · cases he
            · rename_i msg hmsgeq
              refine ⟨"Invalid page selection format ('", "'): " ++ msg, ?_⟩
              have hmsg := (Except.error.injEq _ _).mp he.symm
              rw [hmsg]
              simp [String.append_assoc]
          · rw [if_neg h5] at he
            refine ⟨"Invalid image selection format: '",
              "'. Expected 'all', 'none', 'G:1,2-5', 'P:1,2-4', or blank for all.", ?_⟩
            exact (Except.error.injEq _ _).mp he.symm

/-- Witness for the amended claim C5, at the rejected input `"zzz"`. -/
theorem c5_selection_failure_amended_witness :
    (exceptIsError (parse_image_selection_spec (some "zzz")) = c5FailCondRaw "zzz") ∧
    (∃ a b, ("Invalid image selection format: 'zzz'. " ++
        "Expected 'all', 'none', 'G:1,2-5', 'P:1,2-4', or blank for all." : String) =
      a ++ "zzz" ++ b) :=
  ⟨(c5_selection_failure_amended "zzz").1,
   (c5_selection_failure_amended "zzz").2 _ rfl⟩

/-!
Claim C6: helper lemmas about the identifier matchers.
-/

theorem dropPre_eq_append {p cs r : List Char} (h : dropPre p cs = some r) :
    cs = p ++ r := by
  induction p generalizing cs with
  | nil =>
    simp only [dropPre, Option.some.injEq] at h
    simp [h]
  | cons c ps ih =>
    cases cs with
    | nil => simp [dropPre] at h
    | cons d ds =>
      simp only [dropPre] at h
      split at h
      · rename_i heq
        rw [ih h, heq]
        rfl
      · cases h

theorem dropPre_none_of_colon {p : List Char} {s : String} (hp : ':' ∈ p)
    (hcs : ':' ∉ s.data) : dropPre p s.data = none := by
  cases h : dropPre p s.data with
  | none => rfl
  | some r =>
    rw [dropPre_eq_append h] at hcs
    exact absurd (List.mem_append.mpr (Or.inl hp)) hcs

theorem takeWhile_all {p : Char → Bool} {l : List Char}
    (h : ∀ x ∈ l, p x = true) :
    l.takeWhile p = l ∧ l.dropWhile p = [] := by
  induction l with
  | nil => simp
  | cons a l ih =>
    have ha : p a = true := h a (by simp)
    have ht := ih (fun x hx => h x (by simp [hx]))
    simp [List.takeWhile_cons, List.dropWhile_cons, ha, ht.1, ht.2]

theorem takeWhile_all_append {p : Char → Bool} {l1 : List Char}
    (h1 : ∀ x ∈ l1, p x = true) {c : Char} (hc : p c = false) (l2 : List Char) :
    (l1 ++ c :: l2).takeWhile p = l1 ∧ (l1 ++ c :: l2).dropWhile p = c :: l2 := by
  induction l1 with
  | nil => simp [List.takeWhile_cons, List.dropWhile_cons, hc]
  | cons a l ih =>
    have ha : p a = true := h1 a (by simp)
    have ht := ih (fun x hx => h1 x (by simp [hx]))
    simp [List.takeWhile_cons, List.dropWhile_cons, ha, ht.1, ht.2]

theorem takeWhile_digits_prefix {ds suffix : List Char}
    (hds : ∀ x ∈ ds, pyIsDigit x = true)
    (hsuf : ∀ c ∈ suffix.head?, pyIsDigit c = false) :
    (ds ++ suffix).takeWhile pyIsDigit = ds ∧
      (ds ++ suffix).dropWhile pyIsDigit = suffix := by
  cases suffix with
  | nil => simpa using takeWhile_all hds
  | cons c r => exact takeWhile_all_append hds (hsuf c (by simp)) r

theorem oldWordChar_not_digit {c : Char} (h : oldWordChar c = true) :
    pyIsDigit c = false := by
  simp only [oldWordChar, Bool.or_eq_true, Bool.and_eq_true, decide_eq_true_eq] at h
  simp only [pyIsDigit, Bool.and_eq_false_iff, decide_eq_false_iff_not]
  omega

theorem parseNewId_head_not_digit {cs : List Char}
    (h : ∀ c ∈ cs.head?, pyIsDigit c = false) : parseNewId cs = none := by
  cases cs with
  | nil => rfl
  | cons c r =>
    have hc : pyIsDigit c = false := h c (by simp)
    simp [parseNewId, List.takeWhile_cons, hc]

/-- The shape lemma for the new-style capture: on a well-formed id
followed by a suffix whose first character is neither a digit nor `v`,
the parser captures exactly the id characters and leaves the suffix. -/
theorem parseNewId_shaped {d1 d2 v : List Char} (hp : newIdParts d1 d2 v)
    (suffix : List Char)
    (hsuf : ∀ c ∈ suffix.head?, pyIsDigit c = false ∧ c ≠ 'v') :
    parseNewId ((mkNewId d1 d2 v).data ++ suffix) =
      some ((mkNewId d1 d2 v).data, suffix) := by
  obtain ⟨h1len, h1dig, h2len, h2dig, hvdig⟩ := hp
  have h1d : ∀ x ∈ d1, pyIsDigit x = true := List.all_eq_true.mp h1dig
  have h2d : ∀ x ∈ d2, pyIsDigit x = true := List.all_eq_true.mp h2dig
  have hvd : ∀ x ∈ v, pyIsDigit x = true := List.all_eq_true.mp hvdig
  by_cases hv : v = []
  · subst hv
    have hdata : (mkNewId d1 d2 []).data ++ suffix =
        d1 ++ '.' :: (d2 ++ suffix) := by
      simp [mkNewId, List.append_assoc]
    rw [hdata]
    have t1 := takeWhile_all_append h1d (c := '.') (by decide) (d2 ++ suffix)
    have t2 := takeWhile_digits_prefix h2d (fun c hc => (hsuf c hc).1)
    simp only [parseNewId, t1.1, t1.2]
    rw [if_neg (by omega)]
    simp only [t2.1, t2.2]
    rw [if_neg (by omega)]
    cases suffix with
    | nil => simp [mkNewId]
    | cons c r =>
      have hcv : c ≠ 'v' := (hsuf c (by simp)).2
      split
      · rename_i r4 heq
        injection heq with hh ht
        exact absurd hh hcv
      · simp [mkNewId]
  · obtain ⟨c0, v', hv0⟩ : ∃ c0 v', v = c0 :: v' := by
      cases v with
      | nil => exact absurd rfl hv
      | cons a b => exact ⟨a, b, rfl⟩
    have hdata : (mkNewId d1 d2 v).data ++ suffix =
        d1 ++ '.' :: (d2 ++ 'v' :: (v ++ suffix)) := by
      simp [mkNewId, hv, List.append_assoc]
    rw [hdata]
    have t1 := takeWhile_all_append h1d (c := '.') (by decide) (d2 ++ 'v' :: (v ++ suffix))
    have t2 := takeWhile_all_append h2d (c := 'v') (by decide) (v ++ suffix)
    have t3 := takeWhile_digits_prefix hvd (fun c hc => (hsuf c hc).1)
    simp only [parseNewId, t1.1, t1.2]
    rw [if_neg (by omega)]
    simp only [t2.1, t2.2]
    rw [if_neg (by omega)]
    simp only [t3.1, t3.2]
    rw [if_neg (by simp [hv0])]
    simp [mkNewId, hv, List.append_assoc]

theorem newId_no_colon {d1 d2 v : List Char} (hp : newIdParts d1 d2 v) :
    ':' ∉ (mkNewId d1 d2 v).data := by
  obtain ⟨_, h1dig, _, h2dig, hvdig⟩ := hp
  intro hmem
  simp only [mkNewId, String.data, List.mem_append, List.mem_cons] at hmem
  rcases hmem with (h | h) | h
  · exact absurd (List.all_eq_true.mp h1dig ':' h) (by decide)
  · rcases h with h | h
    · cases h
    · exact absurd (List.all_eq_true.mp h2dig ':' h) (by decide)
  · split at h
    · cases h
    · rcases List.mem_cons.mp h with h | h
      · cases h
      · exact absurd (List.all_eq_true.mp hvdig ':' h) (by decide)

theorem oldId_no_colon {w : List Char} {sub : Option (Char × Char)} {ds : List Char}
    (hp : oldIdParts w sub ds) : ':' ∉ (mkOldId w sub ds).data := by
  obtain ⟨_, hw, hsub, _, hds⟩ := hp
  intro hmem
  simp only [mkOldId, String.data, List.mem_append, List.mem_cons] at hmem
  rcases hmem with (h | h) | h
  · exact absurd (List.all_eq_true.mp hw ':' h) (by decide)
  · cases sub with
    | none => simp [subChars] at h
    | some p =>
      simp only [subOk, Bool.and_eq_true] at hsub
      obtain ⟨hu1, hu2⟩ := hsub
      simp only [subChars, List.mem_cons, List.not_mem_nil, or_false] at h
      rcases h with h | h | h
      · cases h
      · rw [← h] at hu1; exact absurd hu1 (by decide)
      · rw [← h] at hu2; exact absurd hu2 (by decide)
  · rcases h with h | h
    · cases h
    · exact absurd (List.all_eq_true.mp hds ':' h) (by decide)

theorem matchArxivUrl_no_colon {s : String} (h : ':' ∉ s.data) :
    matchArxivUrl s = none := by
  simp only [matchArxivUrl]
  rw [dropPre_none_of_colon (by decide) h, dropPre_none_of_colon (by decide) h,
    dropPre_none_of_colon (by decide) h, dropPre_none_of_colon (by decide) h]

theorem urlCapture_newId {d1 d2 v : List Char} (hp : newIdParts d1 d2 v) :
    urlCapture (mkNewId d1 d2 v).data = some (mkNewId d1 d2 v) := by
  have h := parseNewId_shaped hp [] (by simp)
  rw [List.append_nil] at h
  simp only [urlCapture, h]
  rfl

theorem urlCapture_newId_pdf {d1 d2 v : List Char} (hp : newIdParts d1 d2 v) :
    urlCapture ((mkNewId d1 d2 v).data ++ ".pdf".data) = some (mkNewId d1 d2 v) := by
  have h := parseNewId_shaped hp ".pdf".data (by decide)
  simp only [urlCapture, h]
  rfl

theorem matchBareNewId_newId {d1 d2 v : List Char} (hp : newIdParts d1 d2 v) :
    matchBareNewId (mkNewId d1 d2 v) = some (mkNewId d1 d2 v) := by
  have h := parseNewId_shaped hp [] (by simp)
  rw [List.append_nil] at h
  simp only [matchBareNewId, h]
  rfl

theorem parseNewId_oldId_none {w : List Char} {sub : Option (Char × Char)}
    {ds : List Char} (hp : oldIdParts w sub ds) (x : List Char) :
    parseNewId ((mkOldId w sub ds).data ++ x) = none := by
  obtain ⟨hw0, hw, _, _, _⟩ := hp
  obtain ⟨c, w', hwc⟩ : ∃ c w', w = c :: w' := by
    cases w with
    | nil => exact absurd rfl hw0
    | cons a b => exact ⟨a, b, rfl⟩
  have hcw : oldWordChar c = true := List.all_eq_true.mp hw c (by simp [hwc])
  have hcd : pyIsDigit c = false := oldWordChar_not_digit hcw
  have hdata : (mkOldId w sub ds).data ++ x =
      c :: (w' ++ (subChars sub ++ '/' :: ds) ++ x) := by
    simp [mkOldId, hwc, List.append_assoc]
  rw [hdata]
  exact parseNewId_head_not_digit (by intro d hd; simp at hd; subst hd; exact hcd)

theorem urlCapture_oldId_none {w : List Char} {sub : Option (Char × Char)}
    {ds : List Char} (hp : oldIdParts w sub ds) (x : List Char) :
    urlCapture ((mkOldId w sub ds).data ++ x) = none := by
  simp [urlCapture, parseNewId_oldId_none hp x]

theorem matchBareNewId_oldId_none {w : List Char} {sub : Option (Char × Char)}
    {ds : List Char} (hp : oldIdParts w sub ds) :
    matchBareNewId (mkOldId w sub ds) = none := by
  have h := parseNewId_oldId_none hp []
  rw [List.append_nil] at h
  simp [matchBareNewId, h]

theorem matchOldId_mkOldId {w : List Char} {sub : Option (Char × Char)}
    {ds : List Char} (hp : oldIdParts w sub ds) :
    matchOldId (mkOldId w sub ds) = true := by
  obtain ⟨hw0, hw, hsub, hlen, hds⟩ := hp
  have hwAll : ∀ x ∈ w, oldWordChar x = true := List.all_eq_true.mp hw
  have hdsAll : ∀ x ∈ ds, pyIsDigit x = true := List.all_eq_true.mp hds
  have hslash : oldSlashRest ('/' :: ds) = some [] := by
    have t := takeWhile_all hdsAll
    simp [oldSlashRest, t.1, t.2, hlen]
  cases sub with
  | none =>
    have hdata : (mkOldId w none ds).data = w ++ '/' :: ds := by
      simp [mkOldId, subChars]
    have t := takeWhile_all_append hwAll (c := '/') (by decide) ds
    simp only [matchOldId, oldIdRest, hdata, t.1, t.2]
    rw [if_neg hw0]
    simp [hslash, pyDollarEnd]
  | some p =>
    simp only [subOk, Bool.and_eq_true] at hsub
    obtain ⟨hu1, hu2⟩ := hsub
    have hdata : (mkOldId w (some p) ds).data =
        w ++ '.' :: p.1 :: p.2 :: '/' :: ds := by
      simp [mkOldId, subChars, List.append_assoc]
    have t := takeWhile_all_append hwAll (c := '.') (by decide) (p.1 :: p.2 :: '/' :: ds)
    simp only [matchOldId, oldIdRest, hdata, t.1, t.2]
    rw [if_neg hw0]
    simp [hu1, hu2, hslash, pyDollarEnd]

theorem extract_oldId_bare {w : List Char} {sub : Option (Char × Char)}
    {ds : List Char} (hp : oldIdParts w sub ds) :
    extract_arxiv_id (mkOldId w sub ds) = some (mkOldId w sub ds) := by
  simp only [extract_arxiv_id]
  rw [matchArxivUrl_no_colon (oldId_no_colon hp), matchBareNewId_oldId_none hp,
    matchOldId_mkOldId hp]
  rfl

theorem extract_newId_bare {d1 d2 v : List Char} (hp : newIdParts d1 d2 v) :
    extract_arxiv_id (mkNewId d1 d2 v) = some (mkNewId d1 d2 v) := by
  simp only [extract_arxiv_id]
  rw [matchArxivUrl_no_colon (newId_no_colon hp), matchBareNewId_newId hp]

theorem urlCapture_oldId_bare_none {w : List Char} {sub : Option (Char × Char)}
    {ds : List Char} (hp : oldIdParts w sub ds) :
    urlCapture (mkOldId w sub ds).data = none := by
  have h := urlCapture_oldId_none hp []
  rwa [List.append_nil] at h

/-- Claim C6 counterexample: the old-style identifier `hep-th/0101001`
does not round-trip through the URL forms — the URL pattern only captures
new-style identifiers, so `extract_arxiv_id` returns nothing for
`http://arxiv.org/abs/hep-th/0101001`. -/
theorem c6_extract_roundtrip_counterexample : ¬claimExtractRoundTrip := by
  intro h
  have h2 := (h.2 "hep-th".data none "0101001".data (by decide)).2
    ("http://arxiv.org/abs/" ++ mkOldId "hep-th".data none "0101001".data)
    (by simp [urlWraps])
  exact absurd h2 (by decide)

/-- Claim C6, amended: the three patterns are tried in order and the
first match's capture is returned; every valid new-style identifier
round-trips bare and under all eight URL wrappings, every valid old-style
identifier round-trips bare, and wrapping an old-style identifier in a
URL form yields no identifier at all (the URL pattern captures only
new-style identifiers). -/
theorem c6_extract_roundtrip_amended :
    (∀ d1 d2 v, newIdParts d1 d2 v →
      extract_arxiv_id (mkNewId d1 d2 v) = some (mkNewId d1 d2 v) ∧
      ∀ u ∈ urlWraps (mkNewId d1 d2 v),
        extract_arxiv_id u = some (mkNewId d1 d2 v)) ∧
    (∀ w sub ds, oldIdParts w sub ds →
      extract_arxiv_id (mkOldId w sub ds) = some (mkOldId w sub ds) ∧
      ∀ u ∈ urlWraps (mkOldId w sub ds), extract_arxiv_id u = none) := by
  constructor
  · intro d1 d2 v hp
    refine ⟨extract_newId_bare hp, ?_⟩
    intro u hu
    have hcap := urlCapture_newId hp
    have hcappdf := urlCapture_newId_pdf hp
    simp only [urlWraps, List.mem_cons, List.not_mem_nil, or_false] at hu
    rcases hu with h | h | h | h | h | h | h | h <;> subst h <;>
      simp only [extract_arxiv_id]
    · rw [show matchArxivUrl ("http://arxiv.org/abs/" ++ mkNewId d1 d2 v) =
        urlCapture (mkNewId d1 d2 v).data from rfl, hcap]
    · rw [show matchArxivUrl ("http://arxiv.org/pdf/" ++ mkNewId d1 d2 v) =
        urlCapture (mkNewId d1 d2 v).data from rfl, hcap]
    · rw [show matchArxivUrl ("https://arxiv.org/abs/" ++ mkNewId d1 d2 v) =
        urlCapture (mkNewId d1 d2 v).data from rfl, hcap]
    · rw [show matchArxivUrl ("https://arxiv.org/pdf/" ++ mkNewId d1 d2 v) =
        urlCapture (mkNewId d1 d2 v).data from rfl, hcap]
    · rw [show matchArxivUrl ("http://arxiv.org/abs/" ++ mkNewId d1 d2 v ++ ".pdf") =
        urlCapture ((mkNewId d1 d2 v).data ++ ".pdf".data) from rfl, hcappdf]
    · rw [show matchArxivUrl ("http://arxiv.org/pdf/" ++ mkNewId d1 d2 v ++ ".pdf") =
        urlCapture ((mkNewId d1 d2 v).data ++ ".pdf".data) from rfl, hcappdf]
    · rw [show matchArxivUrl ("https://arxiv.org/abs/" ++ mkNewId d1 d2 v ++ ".pdf") =
        urlCapture ((mkNewId d1 d2 v).data ++ ".pdf".data) from rfl, hcappdf]
    · rw [show matchArxivUrl ("https://arxiv.org/pdf/" ++ mkNewId d1 d2 v ++ ".pdf") =
        urlCapture ((mkNewId d1 d2 v).data ++ ".pdf".data) from rfl, hcappdf]
  · intro w sub ds hp
    refine ⟨extract_oldId_bare hp, ?_⟩
    intro u hu
    have hcap := urlCapture_oldId_bare_none hp
    have hcappdf := urlCapture_oldId_none hp ".pdf".data
    simp only [urlWraps, List.mem_cons, List.not_mem_nil, or_false] at hu
    rcases hu with h | h | h | h | h | h | h | h <;> subst h <;>
      simp only [extract_arxiv_id]
    · rw [show matchArxivUrl ("http://arxiv.org/abs/" ++ mkOldId w sub ds) =
        urlCapture (mkOldId w sub ds).data from rfl, hcap]
      rfl
    · rw [show matchArxivUrl ("http://arxiv.org/pdf/" ++ mkOldId w sub ds) =
        urlCapture (mkOldId w sub ds).data from rfl, hcap]
      rfl
    · rw [show matchArxivUrl ("https://arxiv.org/abs/" ++ mkOldId w sub ds) =
        urlCapture (mkOldId w sub ds).data from rfl, hcap]
      rfl
    · rw [show matchArxivUrl ("https://arxiv.org/pdf/" ++ mkOldId w sub ds) =
        urlCapture (mkOldId w sub ds).data from rfl, hcap]
      rfl
    · rw [show matchArxivUrl ("http://arxiv.org/abs/" ++ mkOldId w sub ds ++ ".pdf") =
        urlCapture ((mkOldId w sub ds).data ++ ".pdf".data) from rfl, hcappdf]
      rfl
    · rw [show matchArxivUrl ("http://arxiv.org/pdf/" ++ mkOldId w sub ds ++ ".pdf") =
        urlCapture ((mkOldId w sub ds).data ++ ".pdf".data) from rfl, hcappdf]
      rfl
    · rw [show matchArxivUrl ("https://arxiv.org/abs/" ++ mkOldId w sub ds ++ ".pdf") =
        urlCapture ((mkOldId w sub ds).data ++ ".pdf".data) from rfl, hcappdf]
      rfl
    · rw [show matchArxivUrl ("https://arxiv.org/pdf/" ++ mkOldId w sub ds ++ ".pdf") =
        urlCapture ((mkOldId w sub ds).data ++ ".pdf".data) from rfl, hcappdf]
      rfl

/-- Witness for the amended claim C6, at `1234.5678` and
`hep-th/0101001`. -/
theorem c6_extract_roundtrip_amended_witness :
    newIdParts "1234".data "5678".data [] ∧
    extract_arxiv_id (mkNewId "1234".data "5678".data []) =
      some (mkNewId "1234".data "5678".data []) ∧
    oldIdParts "hep-th".data none "0101001".data ∧
    extract_arxiv_id (mkOldId "hep-th".data none "0101001".data) =
      some (mkOldId "hep-th".data none "0101001".data) :=
  ⟨by decide,
   (c6_extract_roundtrip_amended.1 "1234".data "5678".data [] (by decide)).1,
   by decide,
   (c6_extract_roundtrip_amended.2 "hep-th".data none "0101001".data (by decide)).1⟩

end LlmArxiv

namespace LlmArxiv

/-!
Claims C1, C2, C8, C9: the assembler. Index bookkeeping first.
-/

theorem withIdxFrom_length {α : Type} (n : ℕ) (l : List α) :
    (withIdxFrom n l).length = l.length := by
  induction l generalizing n with
  | nil => rfl
  | cons a t ih => simp [withIdxFrom, ih]

theorem filterMap_withIdxFrom_succ {α β : Type} (f : ℕ × α → Option β)
    (l : List α) (n : ℕ) :
    (withIdxFrom (n + 1) l).filterMap f =
      (withIdxFrom n l).filterMap (fun q => f (q.1 + 1, q.2)) := by
  induction l generalizing n with
  | nil => rfl
  | cons a t ih =>
    simp only [withIdxFrom, List.filterMap_cons]
    rw [ih]

theorem processPageImages_spec (c : ImageSelectionCriteria) (r : PyResize)
    (url : String) (pageNum : ℕ) (imgs : List RawImage) :
    ∀ idx cnt : ℕ,
      processPageImages c r url pageNum imgs idx cnt =
        (((withIdxFrom 0 imgs).filterMap
            (fun p => specImageAtt c r url pageNum (idx + p.1) (cnt + p.1 + 1) p.2)).map
            Attachment.ref,
          (withIdxFrom 0 imgs).filterMap
            (fun p => specImageAtt c r url pageNum (idx + p.1) (cnt + p.1 + 1) p.2),
          cnt + imgs.length) := by
  induction imgs with
  | nil => intro idx cnt; simp [processPageImages, withIdxFrom]
  | cons img rest ih =>
    intro idx cnt
    have hfix : ∀ a b : ℕ,
        (withIdxFrom 1 rest).filterMap
            (fun p => specImageAtt c r url pageNum (a + p.1) (b + p.1 + 1) p.2) =
          (withIdxFrom 0 rest).filterMap
            (fun p => specImageAtt c r url pageNum (a + 1 + p.1) (b + 1 + p.1 + 1) p.2) := by
      intro a b
      rw [filterMap_withIdxFrom_succ]
      exact List.filterMap_congr (fun q _ => by
        rw [show a + (q.1 + 1) = a + 1 + q.1 from by omega,
          show b + (q.1 + 1) + 1 = b + 1 + q.1 + 1 from by omega])
    simp only [withIdxFrom, List.filterMap_cons, Nat.add_zero, hfix,
      processPageImages, ih (idx + 1) (cnt + 1)]
    by_cases helig : eligibleImage c (cnt + 1) pageNum = true
    · cases hproc : processSelectedImage r img with
      | some fext =>
        simp [specImageAtt, helig, hproc, List.length_cons]
        omega
      | none =>
        simp [specImageAtt, helig, hproc, List.length_cons]
        omega
    · simp [specImageAtt, helig, List.length_cons]
      omega

theorem withIdxFrom_append {α : Type} (l1 l2 : List α) :
    ∀ n : ℕ, withIdxFrom n (l1 ++ l2) =
      withIdxFrom n l1 ++ withIdxFrom (n + l1.length) l2 := by
  induction l1 with
  | nil => intro n; simp [withIdxFrom]
  | cons a t ih =>
    intro n
    simp [withIdxFrom, ih (n + 1), List.length_cons]
    rw [show n + 1 + t.length = n + (t.length + 1) from by omega]

theorem pageBlock_filterMap (c : ImageSelectionCriteria) (r : PyResize)
    (url : String) (pn : ℕ) (imgs : List RawImage) :
    ∀ cnt m : ℕ,
      (withIdxFrom cnt ((withIdxFrom m imgs).map (fun p => (pn, p.1, p.2)))).filterMap
          (fun q => specImageAtt c r url q.2.1 q.2.2.1 (q.1 + 1) q.2.2.2) =
        (withIdxFrom 0 imgs).filterMap
          (fun p => specImageAtt c r url pn (m + p.1) (cnt + p.1 + 1) p.2) := by
  induction imgs with
  | nil => intro cnt m; rfl
  | cons img rest ih =>
    intro cnt m
    have ht :
        (withIdxFrom 0 rest).filterMap
            (fun q => specImageAtt c r url pn (m + (q.1 + 1)) (cnt + (q.1 + 1) + 1) q.2) =
          (withIdxFrom 0 rest).filterMap
            (fun q => specImageAtt c r url pn (m + 1 + q.1) (cnt + 1 + q.1 + 1) q.2) :=
      List.filterMap_congr (fun q _ => by
        rw [show m + (q.1 + 1) = m + 1 + q.1 from by omega,
          show cnt + (q.1 + 1) + 1 = cnt + 1 + q.1 + 1 from by omega])
    simp only [withIdxFrom, List.map_cons, List.filterMap_cons, Nat.add_zero,
      ih (cnt + 1) (m + 1), filterMap_withIdxFrom_succ, ht]

theorem processPages_atts_spec (c : ImageSelectionCriteria) (r : PyResize)
    (url : String) (pages : List Page) :
    ∀ pn cnt : ℕ,
      (processPages (some c) r url pages pn cnt).2 =
        (withIdxFrom cnt (docImagesFrom pages pn)).filterMap
          (fun q => specImageAtt c r url q.2.1 q.2.2.1 (q.1 + 1) q.2.2.2) := by
  induction pages with
  | nil => intro pn cnt; rfl
  | cons pg rest ih =>
    intro pn cnt
    simp only [processPages, processPageImages_spec, docImagesFrom]
    rw [withIdxFrom_append, List.filterMap_append, pageBlock_filterMap,
      show ((withIdxFrom 0 pg.images).map (fun p => (pn, p.1, p.2))).length =
        pg.images.length from by simp [withIdxFrom_length],
      ih (pn + 1) (cnt + pg.images.length)]

theorem specImageAtt_pages (s : Finset ℕ) (r : PyResize) (url : String)
    (pn idx k : ℕ) (img : RawImage) :
    specImageAtt (.pages s) r url pn idx k img =
      if pn + 1 ∈ s then
        (match processSelectedImage r img with
          | some fe => some ⟨conceptualRef url pn idx, "image/" ++ fe⟩
          | none => none)
      else none := by
  by_cases h : pn + 1 ∈ s
  · have hcard : s.card ≠ 0 := Finset.card_ne_zero.mpr ⟨pn + 1, h⟩
    simp [specImageAtt, eligibleImage, h, hcard]
  · simp [specImageAtt, eligibleImage, h]

theorem filterMap_const_none {α β : Type} (l : List α) :
    l.filterMap (fun _ => (none : Option β)) = [] := by
  induction l with
  | nil => rfl
  | cons a t ih => simp [List.filterMap_cons, ih]

theorem processPages_pages_mode (s : Finset ℕ) (r : PyResize) (url : String)
    (pages : List Page) :
    ∀ pn cnt : ℕ,
      (processPages (some (.pages s)) r url pages pn cnt).2 =
        (withIdxFrom pn pages).flatMap
          (fun p => if p.1 + 1 ∈ s then pageAllSuccessAtts r url p.1 p.2.images
            else []) := by
  induction pages with
  | nil => intro pn cnt; rfl
  | cons pg rest ih =>
    intro pn cnt
    simp only [processPages, processPageImages_spec, withIdxFrom, List.flatMap_cons,
      ih (pn + 1)]
    by_cases h : pn + 1 ∈ s
    · rw [if_pos h]
      have hatt : (withIdxFrom 0 pg.images).filterMap
          (fun p => specImageAtt (.pages s) r url pn (0 + p.1) (cnt + p.1 + 1) p.2) =
          pageAllSuccessAtts r url pn pg.images := by
        refine List.filterMap_congr (fun p _ => ?_)
        rw [specImageAtt_pages, if_pos h, Nat.zero_add]
      rw [hatt]
    · rw [if_neg h]
      have hatt : (withIdxFrom 0 pg.images).filterMap
          (fun p => specImageAtt (.pages s) r url pn (0 + p.1) (cnt + p.1 + 1) p.2) =
          [] := by
        rw [List.filterMap_congr (fun p _ => by rw [specImageAtt_pages, if_neg h])]
        exact filterMap_const_none _
      rw [hatt]

theorem placeholderRefs_append (a b : List OutSeg) :
    placeholderRefs (a ++ b) = placeholderRefs a ++ placeholderRefs b := by
  induction a with
  | nil => rfl
  | cons x t ih => cases x <;> simp [placeholderRefs, ih]

theorem placeholderRefs_substitute_sub (items : List MarkupItem) :
    ∀ (refs : List String) (x : String),
      x ∈ placeholderRefs (substitutePlaceholders items refs) → x ∈ refs := by
  induction items with
  | nil => intro refs x hx; simp [substitutePlaceholders, placeholderRefs] at hx
  | cons i rest ih =>
    intro refs x hx
    cases i with
    | text s =>
      exact ih refs x (by simpa [substitutePlaceholders, placeholderRefs] using hx)
    | imgTag raw =>
      cases refs with
      | nil =>
        have := ih [] x (by simpa [substitutePlaceholders, placeholderRefs] using hx)
        simp at this
      | cons rh rt =>
        simp only [substitutePlaceholders, placeholderRefs, List.mem_cons] at hx
        rcases hx with h | h
        · simp [h]
        · exact List.mem_cons_of_mem _ (ih rt x h)

theorem substitute_consume (items : List MarkupItem) :
    ∀ refs : List String, refs.length ≤ countImgTags items →
      placeholderRefs (substitutePlaceholders items refs) = refs := by
  induction items with
  | nil =>
    intro refs h
    simp only [countImgTags, List.countP_nil, Nat.le_zero, List.length_eq_zero] at h
    subst h
    rfl
  | cons i rest ih =>
    intro refs h
    cases i with
    | text s =>
      have h2 : refs.length ≤ countImgTags rest := by
        simpa [countImgTags, List.countP_cons] using h
      simp [substitutePlaceholders, placeholderRefs, ih refs h2]
    | imgTag raw =>
      cases refs with
      | nil => simpa [substitutePlaceholders, placeholderRefs] using ih [] (by simp)
      | cons rh rt =>
        have h2 : rt.length ≤ countImgTags rest := by
          simp [countImgTags, List.countP_cons] at h ⊢
          omega
        simp [substitutePlaceholders, placeholderRefs, ih rt h2]

theorem placeholderRefs_stripImgSegs (pages : List Page) :
    placeholderRefs (stripImgSegs pages) = [] := by
  induction pages with
  | nil => rfl
  | cons pg rest ihp =>
    have hpage : placeholderRefs (pg.html.map stripImgItem) = [] := by
      induction pg.html with
      | nil => rfl
      | cons i t iht => cases i <;> simpa [stripImgItem, placeholderRefs] using iht
    simp [stripImgSegs, placeholderRefs_append, hpage, ihp]

theorem substitute_empty (items : List MarkupItem) :
    substitutePlaceholders items [] = items.map stripImgItem := by
  induction items with
  | nil => rfl
  | cons i rest ih => cases i <;> simp [substitutePlaceholders, stripImgItem, ih]

theorem processPages_none (r : PyResize) (url : String) (pages : List Page) :
    ∀ pn cnt : ℕ,
      processPages none r url pages pn cnt = (stripImgSegs pages, []) := by
  induction pages with
  | nil => intro pn cnt; rfl
  | cons pg rest ih =>
    intro pn cnt
    simp [processPages, substitute_empty, stripImgSegs, ih (pn + 1) cnt]

theorem placeholders_processPages_eq (c : ImageSelectionCriteria) (r : PyResize)
    (url : String) (pages : List Page) :
    ∀ pn cnt : ℕ, (∀ pg ∈ pages, pg.images.length ≤ countImgTags pg.html) →
      placeholderRefs (processPages (some c) r url pages pn cnt).1 =
        ((processPages (some c) r url pages pn cnt).2).map Attachment.ref := by
  induction pages with
  | nil => intro pn cnt _; rfl
  | cons pg rest ih =>
    intro pn cnt h
    have hpg : pg.images.length ≤ countImgTags pg.html := h pg (by simp)
    have hrest : ∀ q ∈ rest, q.images.length ≤ countImgTags q.html :=
      fun q hq => h q (by simp [hq])
    simp only [processPages, processPageImages_spec, placeholderRefs_append,
      List.map_append]
    have hlen : (((withIdxFrom 0 pg.images).filterMap
        (fun p => specImageAtt c r url pn (0 + p.1) (cnt + p.1 + 1) p.2)).map
          Attachment.ref).length ≤ countImgTags pg.html := by
      have h1 := List.length_filterMap_le
        (fun p => specImageAtt c r url pn (0 + p.1) (cnt + p.1 + 1) p.2)
        (withIdxFrom 0 pg.images)
      rw [List.length_map]
      calc ((withIdxFrom 0 pg.images).filterMap _).length
          ≤ (withIdxFrom 0 pg.images).length := h1
        _ = pg.images.length := withIdxFrom_length 0 pg.images
        _ ≤ countImgTags pg.html := hpg
    rw [substitute_consume pg.html _ hlen, ih (pn + 1) (cnt + pg.images.length) hrest]

/-- Claim C1 counterexample: a page whose markup contains no `<img>`
marker but whose image list has one successfully processed image yields
one attachment and zero placeholders, so the zip invariant fails as
universally stated. (`page.get_images(full=True)` and the `<img>` tags of
`page.get_text("html")` are separate collaborator outputs; nothing in the
code ties their counts together.) -/
theorem c1_zip_counterexample : ¬claimDocZip := by
  intro h
  exact absurd
    (h [⟨[], [⟨true, "png", true, 5, 5, true⟩]⟩] (some .all) (.bool false) "u")
    (by decide)

/-- Claim C1, amended: provided every page's markup has at least as many
`<img>` markers as the page has embedded images, the placeholders of the
output text equal, element by element and in order, the provenance
references of the attachment list — so their counts agree, the i-th
placeholder corresponds to the i-th attachment, and an image that fails
processing contributes neither. -/
theorem c1_zip_amended (pages : List Page) (criteria : Option ImageSelectionCriteria)
    (r : PyResize) (url : String)
    (h : ∀ pg ∈ pages, pg.images.length ≤ countImgTags pg.html) :
    placeholderRefs (assemble pages criteria r url).segs =
      (assemble pages criteria r url).attachments.map Attachment.ref ∧
    (placeholderRefs (assemble pages criteria r url).segs).length =
      (assemble pages criteria r url).attachments.length := by
  have hmain : placeholderRefs (assemble pages criteria r url).segs =
      (assemble pages criteria r url).attachments.map Attachment.ref := by
    cases criteria with
    | none =>
      have hp := processPages_none r url pages 0 0
      simp [assemble, hp, placeholderRefs_stripImgSegs]
    | some c =>
      have := placeholders_processPages_eq c r url pages 0 0 h
      simpa [assemble] using this
  exact ⟨hmain, by rw [hmain, List.length_map]⟩

/-- Witness for the amended claim C1. -/
theorem c1_zip_amended_witness :
    (∀ pg ∈ [(⟨[.imgTag "<img>"], [⟨true, "png", true, 3, 3, true⟩]⟩ : Page)],
      pg.images.length ≤ countImgTags pg.html) ∧
    placeholderRefs (assemble [⟨[.imgTag "<img>"], [⟨true, "png", true, 3, 3, true⟩]⟩]
        (some .all) (.bool false) "u").segs =
      (assemble [⟨[.imgTag "<img>"], [⟨true, "png", true, 3, 3, true⟩]⟩]
        (some .all) (.bool false) "u").attachments.map Attachment.ref :=
  ⟨by decide,
   (c1_zip_amended [⟨[.imgTag "<img>"], [⟨true, "png", true, 3, 3, true⟩]⟩]
     (some .all) (.bool false) "u" (by decide)).1⟩

/-- Claim C2: the attachments produced by the assembler are exactly those
of the global-position characterisation — the image at 0-based discovery
position `i` in the whole document is tested with counter value `i + 1`,
so the k-th discovered image receives counter `k` whatever the mode and
outcome pattern; eligibility is exactly All / Global-membership of the
counter / Pages-membership of the 1-based page number; every placeholder
in the output is the reference of an eligible surviving image; and in
`Pages(S)` mode a page outside `S` contributes nothing at all. -/
theorem c2_discovery_counter_eligibility (pages : List Page)
    (c : ImageSelectionCriteria) (r : PyResize) (url : String) :
    ((assemble pages (some c) r url).attachments = specAttsGlobal c r url pages) ∧
    (∀ k pn : ℕ, eligibleImage c k pn = true ↔
      (c = .all ∨ (∃ s, c = .global s ∧ k ∈ s) ∨ (∃ s, c = .pages s ∧ pn + 1 ∈ s))) ∧
    (∀ ref ∈ placeholderRefs (assemble pages (some c) r url).segs,
      ref ∈ (specAttsGlobal c r url pages).map Attachment.ref) ∧
    (∀ s, c = .pages s →
      (assemble pages (some c) r url).attachments = specAttsPages s r url pages) := by
  have hatts : (assemble pages (some c) r url).attachments =
      specAttsGlobal c r url pages := by
    simpa [assemble, specAttsGlobal] using processPages_atts_spec c r url pages 0 0
  refine ⟨hatts, ?_, ?_, ?_⟩
  · intro k pn
    cases c with
    | all => simp [eligibleImage]
    | global s =>
      simp only [eligibleImage, Bool.and_eq_true, ne_eq, decide_eq_true_eq]
      constructor
      · rintro ⟨_, hk⟩
        exact Or.inr (Or.inl ⟨s, rfl, hk⟩)
      · rintro (h | ⟨s2, hs2, hk⟩ | ⟨s2, hs2, _⟩)
        · cases h
        · cases hs2
          exact ⟨by simpa using Finset.card_ne_zero.mpr ⟨k, hk⟩, hk⟩
        · cases hs2
    | pages s =>
      simp only [eligibleImage, Bool.and_eq_true, ne_eq, decide_eq_true_eq]
      constructor
      · rintro ⟨_, hk⟩
        exact Or.inr (Or.inr ⟨s, rfl, hk⟩)
      · rintro (h | ⟨s2, hs2, _⟩ | ⟨s2, hs2, hk⟩)
        · cases h
        · cases hs2
        · cases hs2
          exact ⟨by simpa using Finset.card_ne_zero.mpr ⟨pn + 1, hk⟩, hk⟩
  · intro ref href
    rw [← hatts]
    have hsub : ∀ (ps : List Page) (pn cnt : ℕ),
        ∀ x ∈ placeholderRefs (processPages (some c) r url ps pn cnt).1,
          x ∈ ((processPages (some c) r url ps pn cnt).2).map Attachment.ref := by
      intro ps
      induction ps with
      | nil => intro pn cnt x hx; simp [processPages, placeholderRefs] at hx
      | cons pg rest ihp =>
        intro pn cnt x hx
        simp only [processPages, processPageImages_spec, placeholderRefs_append,
          List.mem_append, List.map_append] at hx ⊢
        rcases hx with hx | hx
        · exact Or.inl (placeholderRefs_substitute_sub pg.html _ x hx)
        · exact Or.inr (ihp (pn + 1) (cnt + pg.images.length) x hx)
    exact hsub pages 0 0 ref (by simpa [assemble] using href)
  · intro s hs
    subst hs
    have := processPages_pages_mode s r url pages 0 0
    simpa [assemble, specAttsPages] using this

/-- Witness for claim C2, on a three-page document with one image per
page and criteria `Pages({2})`: only page 2 contributes. -/
theorem c2_discovery_counter_eligibility_witness :
    ((assemble [⟨[.imgTag "<a>"], [⟨true, "png", true, 2, 2, true⟩]⟩,
        ⟨[.imgTag "<b>"], [⟨true, "png", true, 2, 2, true⟩]⟩,
        ⟨[.imgTag "<c>"], [⟨true, "png", true, 2, 2, true⟩]⟩]
        (some (.pages {2})) (.bool false) "u").attachments =
      specAttsPages {2} (.bool false) "u"
        [⟨[.imgTag "<a>"], [⟨true, "png", true, 2, 2, true⟩]⟩,
          ⟨[.imgTag "<b>"], [⟨true, "png", true, 2, 2, true⟩]⟩,
          ⟨[.imgTag "<c>"], [⟨true, "png", true, 2, 2, true⟩]⟩]) ∧
    ("u#page_2_img_1" ∈ (specAttsGlobal (.pages {2}) (.bool false) "u"
        [⟨[.imgTag "<a>"], [⟨true, "png", true, 2, 2, true⟩]⟩,
          ⟨[.imgTag "<b>"], [⟨true, "png", true, 2, 2, true⟩]⟩,
          ⟨[.imgTag "<c>"], [⟨true, "png", true, 2, 2, true⟩]⟩]).map Attachment.ref) :=
  ⟨(c2_discovery_counter_eligibility _ (.pages {2}) (.bool false) "u").2.2.2 {2} rfl,
   (c2_discovery_counter_eligibility
       [⟨[.imgTag "<a>"], [⟨true, "png", true, 2, 2, true⟩]⟩,
         ⟨[.imgTag "<b>"], [⟨true, "png", true, 2, 2, true⟩]⟩,
         ⟨[.imgTag "<c>"], [⟨true, "png", true, 2, 2, true⟩]⟩]
       (.pages {2}) (.bool false) "u").2.2.1 "u#page_2_img_1" (by decide)⟩

/-- Claim C7 (code bug): with an explicit positive pixel bound the resize
arithmetic is as documented (1000×500 at bound 512 becomes 512×256, and
an image within bounds is untouched), but the boolean `True` directive —
documented in the source as "default 512" — satisfies
`isinstance(resize_option, int) and resize_option > 0` because `bool`
subclasses `int`, so `max_dim_to_use` becomes `True` (numerically 1) and
the `elif resize_option is True` branch assigning 512 is unreachable:
a 1000×500 image is resized to 1×1 instead of 512×256. -/
theorem c7_resize_default_bound_bug :
    resizeDims (.int 512) 1000 500 = (512, 256) ∧
    resizeDims (.int 512) 400 300 = (400, 300) ∧
    resizeParams (.bool true) = (true, 1) ∧
    resizeDims (.bool true) 1000 500 = (1, 1) ∧
    resizeDims (.bool true) 1000 500 ≠ (512, 256) := by decide

/-- Claim C8: a failure while opening or iterating the PDF aborts the
whole call with the wrapped fatal error, nothing partial; when the PDF is
readable the call always returns an assembled document — per-image
failures (the outcome flags of every image) can never surface as an
error. -/
theorem c8_failure_semantics (openResult : Except String (List Page))
    (criteria : Option ImageSelectionCriteria) (r : PyResize)
    (url pdfPath : String) :
    (∀ e, openResult = .error e →
      processPaperDoc openResult criteria r url pdfPath =
        .error ("Failed to extract content from PDF " ++ pdfPath ++ ": " ++ e)) ∧
    (∀ pages, openResult = .ok pages →
      processPaperDoc openResult criteria r url pdfPath =
        .ok (assemble pages criteria r url)) := by
  constructor
  · intro e he; subst he; rfl
  · intro pages hpg; subst hpg; rfl

/-- Witness for claim C8: a concrete fatal error, and a concrete document
whose only image fails per-image processing yet the call succeeds. -/
theorem c8_failure_semantics_witness :
    processPaperDoc (.error "boom") none (.bool false) "u" "p.pdf" =
      .error "Failed to extract content from PDF p.pdf: boom" ∧
    processPaperDoc (.ok [⟨[], [⟨true, "png", true, 0, 5, true⟩]⟩]) (some .all)
        (.bool false) "u" "p.pdf" =
      .ok (assemble [⟨[], [⟨true, "png", true, 0, 5, true⟩]⟩] (some .all)
        (.bool false) "u") := by
  constructor
  · have h := (c8_failure_semantics (.error "boom") none (.bool false) "u" "p.pdf").1
      "boom" rfl
    rw [h]
    rfl
  · exact (c8_failure_semantics (.ok [⟨[], [⟨true, "png", true, 0, 5, true⟩]⟩])
      (some .all) (.bool false) "u" "p.pdf").2 _ rfl

/-- Claim C9 counterexample: with absent criteria a page whose markup
contains an `<img>` tag is not appended unchanged — the placeholder
substitution still runs with an empty placeholder list and deletes the
tag. -/
theorem c9_absent_unchanged_counterexample : ¬claimAbsentUnchanged := by
  intro h
  exact absurd (h [⟨[.imgTag "<img src=q>"], []⟩] (.bool false) "u") (by decide)

/-- Claim C9, amended: with absent criteria no image work is done (the
attachment list is empty and no placeholder is inserted), but each page's
markup still passes through the `<img>`-marker substitution with an empty
placeholder list, which replaces every `<img>` tag by empty content;
markup containing no `<img>` tag is appended unchanged. -/
theorem c9_absent_unchanged_amended (pages : List Page) (r : PyResize)
    (url : String) :
    (assemble pages none r url).attachments = [] ∧
    (assemble pages none r url).segs = stripImgSegs pages := by
  have h := processPages_none r url pages 0 0
  constructor <;> simp [assemble, h]

/-- Claim C10 (code bug): the loader maps every `?r`/`?resize_images`
value that is neither true-like nor a positive integer to the boolean
`True` directive without ever raising — but the "default 512-pixel bound"
that `True` is documented to mean is actually bound 1 downstream (see the
claim C7 bug), so such values silently enable resizing to a 1-pixel
longest side. -/
theorem c10_loader_resize_fallback_bug :
    arxiv_loader_resize_option ["0"] = .bool true ∧
    arxiv_loader_resize_option ["-3"] = .bool true ∧
    arxiv_loader_resize_option ["abc"] = .bool true ∧
    arxiv_loader_resize_option [] = .bool false ∧
    arxiv_loader_resize_option ["640"] = .int 640 ∧
    resizeParams (.bool true) = (true, 1) ∧
    resizeParams (.bool true) ≠ (true, 512) := by decide

end LlmArxiv

